import Mathlib

/-!
Verification of the OpenAgent orchestrator core against its specification.

The definitions below are shallow embeddings of the Python sources under
`services/orchestrator/app/`: pure functions are translated directly, and the
stateful engine operations are modelled as explicit state transformers over a
record of the database tables they read and write.  Machine integers are
modelled as `Int`/`Nat` (Python integers are unbounded, so no wrap-around is
needed), and fallible code returns `Except`/`Option`.

String operations (`strip`, `lower`, `split`, `in`, `startswith`, `endswith`,
`int(...)`) are modelled by executable functions over the character list of a
`String`, mirroring Python's semantics on the ASCII fragment the code uses.
-/

namespace OpenAgent

/-! ## Python string primitives -/

/-- Substring test on character lists: Python's `sub in hay`. -/
def hasSub (hay sub : List Char) : Bool :=
  match hay with
  | [] => sub.isEmpty
  | _ :: t => sub.isPrefixOf hay || hasSub t sub

/-- Python `sub in hay` for strings. -/
def strContains (hay sub : String) : Bool :=
  hasSub hay.data sub.data

/-- Python `s.startswith(p)`. -/
def strStarts (s p : String) : Bool :=
  p.data.isPrefixOf s.data

/-- Python `s.endswith(p)`. -/
def strEnds (s p : String) : Bool :=
  p.data.isSuffixOf s.data

/-- Python `s.strip()` (whitespace from both ends). -/
def pyStrip (s : String) : String :=
  ⟨((s.data.dropWhile Char.isWhitespace).reverse.dropWhile Char.isWhitespace).reverse⟩

/-- Python `s.lower()` (ASCII case folding; the code only lowercases ASCII). -/
def pyLower (s : String) : String :=
  ⟨s.data.map Char.toLower⟩

/-- Split a character list at every occurrence of the character `c`
(Python `s.split(c)` for a one-character separator). -/
def splitChar (c : Char) : List Char → List (List Char)
  | [] => [[]]
  | x :: t =>
    let r := splitChar c t
    if x == c then [] :: r
    else
      match r with
      | h :: rest => (x :: h) :: rest
      | [] => [[x]]

/-- Python `s.split(c)` for a one-character separator. -/
def pySplitChar (s : String) (c : Char) : List String :=
  (splitChar c s.data).map (fun l => ⟨l⟩)

/-- Split at the first occurrence of `c` only (Python `s.split(c, 1)`);
returns the head and, when `c` occurs, the remainder. -/
def split1Char (c : Char) : List Char → List Char × Option (List Char)
  | [] => ([], none)
  | x :: t =>
    if x == c then ([], some t)
    else
      let (a, b) := split1Char c t
      (x :: a, b)

/-- Python `s.split(c, 1)`. -/
def pySplit1 (s : String) (c : Char) : String × Option String :=
  let (a, b) := split1Char c s.data
  (⟨a⟩, b.map (fun l => ⟨l⟩))

/-- Accumulator pass for whitespace splitting. -/
def wsSplitAux : List Char → List Char → List (List Char)
  | [], acc => if acc.isEmpty then [] else [acc.reverse]
  | c :: t, acc =>
    if c.isWhitespace then
      if acc.isEmpty then wsSplitAux t [] else acc.reverse :: wsSplitAux t []
    else wsSplitAux t (c :: acc)

/-- Python `s.split()` with no argument: split on whitespace runs, dropping
empty tokens. -/
def pySplitWs (s : String) : List String :=
  (wsSplitAux s.data []).map (fun l => ⟨l⟩)

/-- Digit-string value, or `none` when empty or containing a non-digit. -/
def digitsToNat : List Char → Option Nat
  | [] => none
  | l => go l 0
where
  go : List Char → Nat → Option Nat
    | [], acc => some acc
    | c :: t, acc => if c.isDigit then go t (acc * 10 + (c.toNat - 48)) else none

/-- Python `int(s)`: strips whitespace, accepts an optional sign, then
decimal digits; any other shape raises, modelled as `none`. -/
def pyInt (s : String) : Option Int :=
  let l := (s.data.dropWhile Char.isWhitespace).reverse.dropWhile Char.isWhitespace |>.reverse
  match l with
  | '-' :: rest => (digitsToNat rest).map (fun n => -(n : Int))
  | '+' :: rest => (digitsToNat rest).map (fun n => (n : Int))
  | rest => (digitsToNat rest).map (fun n => (n : Int))

/-! ## `app/permissions.py` -/

/-- Translation of `permissions.scope_for_tool`: maps a tool name to its
coarse permission scope. -/
def scope_for_tool (tool_name : String) : String :=
  let t := pyStrip tool_name
  if t == "shell.exec" then "shell"
  else if t == "ppt.render" then "fs_write"
  else if t == "filesystem.list" || t == "filesystem.read_text" || t == "filesystem.stat" then
    "fs_read"
  else if t == "filesystem.write_text" || t == "filesystem.mkdir" || t == "filesystem.move" then
    "fs_write"
  else if t == "filesystem.delete" then "fs_delete"
  else if t == "browser.click" then "browser_click"
  else if strStarts t "web." then "network"
  else if strStarts t "browser." then "network"
  else if strStarts t "mcp/" then "mcp"
  else "other"

/-- The spec's pattern table for `scope_for_tool` as claim C4 reads it:
wildcard suffix patterns `*.write_text`, `*.mkdir`, `*.move`, `*.delete`,
`*.list`, `*.read_text`, `*.stat`, applied in the order the table lists the
rows.  This is the claim's statement, to be compared with `scope_for_tool`
above (which is the translation of the source). -/
def scopeClaimTable (tool_name : String) : String :=
  let t := pyStrip tool_name
  if t == "shell.exec" then "shell"
  else if strEnds t ".write_text" || strEnds t ".mkdir" || strEnds t ".move"
      || t == "ppt.render" then "fs_write"
  else if strEnds t ".delete" then "fs_delete"
  else if strEnds t ".list" || strEnds t ".read_text" || strEnds t ".stat" then "fs_read"
  else if t == "browser.click" then "browser_click"
  else if strStarts t "web." || strStarts t "browser." then "network"
  else if strStarts t "mcp/" then "mcp"
  else "other"

end OpenAgent

namespace OpenAgent

/-- A string beginning with one literal cannot be equal to a literal that does
not begin with it. -/
theorem beq_false_of_starts {x p lit : String} (h : strStarts x p = true)
    (hlit : strStarts lit p = false) : (x == lit) = false := by
  apply beq_eq_false_iff_ne.mpr
  intro he
  rw [he, hlit] at h
  exact Bool.noConfusion h

/-- Two prefixes with different head characters cannot both match. -/
theorem isPrefixOf_false_of_head_ne {a : Char} {p l : List Char} (b : Char) (q : List Char)
    (h : (a :: p).isPrefixOf l = true) (hne : a ≠ b) : ((b :: q).isPrefixOf l) = false := by
  cases l with
  | nil => simp [List.isPrefixOf] at h
  | cons c t =>
    simp only [List.isPrefixOf, Bool.and_eq_true, beq_iff_eq] at h
    have hb : (b == c) = false := by
      rw [← h.1]
      exact beq_eq_false_iff_ne.mpr (Ne.symm hne)
    simp [List.isPrefixOf, hb]

/-- A string starting with `browser.` does not start with `web.`. -/
theorem starts_browser_not_web {x : String} (h : strStarts x "browser." = true) :
    strStarts x "web." = false :=
  isPrefixOf_false_of_head_ne 'w' ['e', 'b', '.']
    (show ('b' :: ['r', 'o', 'w', 's', 'e', 'r', '.']).isPrefixOf x.data = true from h)
    (by decide)

/-- A string starting with `mcp/` starts with neither `web.` nor `browser.`. -/
theorem starts_mcp_not_web_browser {x : String} (h : strStarts x "mcp/" = true) :
    strStarts x "web." = false ∧ strStarts x "browser." = false :=
  ⟨isPrefixOf_false_of_head_ne 'w' ['e', 'b', '.']
      (show ('m' :: ['c', 'p', '/']).isPrefixOf x.data = true from h) (by decide),
   isPrefixOf_false_of_head_ne 'b' ['r', 'o', 'w', 's', 'e', 'r', '.']
      (show ('m' :: ['c', 'p', '/']).isPrefixOf x.data = true from h) (by decide)⟩

/-- C4 counterexample: the claim's wildcard table disagrees with the source on
any non-`filesystem.` name carrying one of the wildcard suffixes.  The source
sends `notes.write_text` to scope `other`, while the claim's table sends it
to `fs_write`. -/
theorem scope_for_tool_claim_false :
    scope_for_tool "notes.write_text" = "other" ∧
    scopeClaimTable "notes.write_text" = "fs_write" ∧
    scope_for_tool "notes.write_text" ≠ scopeClaimTable "notes.write_text" := by
  refine ⟨by decide, by decide, by decide⟩

/-- The exact (name, scope) rows of the corrected table. -/
def scopeExactRows : List (String × String) :=
  [("shell.exec", "shell"),
   ("filesystem.write_text", "fs_write"), ("filesystem.mkdir", "fs_write"),
   ("filesystem.move", "fs_write"), ("ppt.render", "fs_write"),
   ("filesystem.delete", "fs_delete"),
   ("filesystem.list", "fs_read"), ("filesystem.read_text", "fs_read"),
   ("filesystem.stat", "fs_read"),
   ("browser.click", "browser_click")]

/-- C4 amended: `scope_for_tool` maps the exact names `shell.exec`,
`filesystem.write_text` / `filesystem.mkdir` / `filesystem.move` /
`ppt.render`, `filesystem.delete`, `filesystem.list` / `filesystem.read_text`
/ `filesystem.stat` and `browser.click` to their scopes; names starting with
`web.` map to `network`, other names starting with `browser.` map to
`network`, names starting with `mcp/` map to `mcp`, and every remaining name
maps to `other`.  The wildcard-suffix rows of the spec's table hold only for
these `filesystem.`-prefixed names. -/
theorem scope_for_tool_amended (t : String) :
    (∀ p ∈ scopeExactRows, scope_for_tool p.1 = p.2) ∧
    (strStarts (pyStrip t) "web." = true → scope_for_tool t = "network") ∧
    (strStarts (pyStrip t) "browser." = true → pyStrip t ≠ "browser.click" →
      scope_for_tool t = "network") ∧
    (strStarts (pyStrip t) "mcp/" = true → scope_for_tool t = "mcp") ∧
    ((∀ p ∈ scopeExactRows, pyStrip t ≠ p.1) →
      strStarts (pyStrip t) "web." = false →
      strStarts (pyStrip t) "browser." = false →
      strStarts (pyStrip t) "mcp/" = false →
      scope_for_tool t = "other") := by
  refine ⟨?_, ?_, ?_, ?_, ?_⟩
  · intro p hp
    simp only [scopeExactRows, List.mem_cons, List.not_mem_nil, or_false] at hp
    rcases hp with rfl | rfl | rfl | rfl | rfl | rfl | rfl | rfl | rfl | rfl <;> decide
  · intro h
    have e1 : (pyStrip t == "shell.exec") = false := beq_false_of_starts h (by decide)
    have e2 : (pyStrip t == "ppt.render") = false := beq_false_of_starts h (by decide)
    have e3 : (pyStrip t == "filesystem.list") = false := beq_false_of_starts h (by decide)
    have e4 : (pyStrip t == "filesystem.read_text") = false := beq_false_of_starts h (by decide)
    have e5 : (pyStrip t == "filesystem.stat") = false := beq_false_of_starts h (by decide)
    have e6 : (pyStrip t == "filesystem.write_text") = false := beq_false_of_starts h (by decide)
    have e7 : (pyStrip t == "filesystem.mkdir") = false := beq_false_of_starts h (by decide)
    have e8 : (pyStrip t == "filesystem.move") = false := beq_false_of_starts h (by decide)
    have e9 : (pyStrip t == "filesystem.delete") = false := beq_false_of_starts h (by decide)
    have e10 : (pyStrip t == "browser.click") = false := beq_false_of_starts h (by decide)
    simp [scope_for_tool, e1, e2, e3, e4, e5, e6, e7, e8, e9, e10, h]
  · intro h hne
    have hw : strStarts (pyStrip t) "web." = false := starts_browser_not_web h
    have e1 : (pyStrip t == "shell.exec") = false := beq_false_of_starts h (by decide)
    have e2 : (pyStrip t == "ppt.render") = false := beq_false_of_starts h (by decide)
    have e3 : (pyStrip t == "filesystem.list") = false := beq_false_of_starts h (by decide)
    have e4 : (pyStrip t == "filesystem.read_text") = false := beq_false_of_starts h (by decide)
    have e5 : (pyStrip t == "filesystem.stat") = false := beq_false_of_starts h (by decide)
    have e6 : (pyStrip t == "filesystem.write_text") = false := beq_false_of_starts h (by decide)
    have e7 : (pyStrip t == "filesystem.mkdir") = false := beq_false_of_starts h (by decide)
    have e8 : (pyStrip t == "filesystem.move") = false := beq_false_of_starts h (by decide)
    have e9 : (pyStrip t == "filesystem.delete") = false := beq_false_of_starts h (by decide)
    have e10 : (pyStrip t == "browser.click") = false := beq_eq_false_iff_ne.mpr hne
    simp [scope_for_tool, e1, e2, e3, e4, e5, e6, e7, e8, e9, e10, hw, h]
  · intro h
    obtain ⟨hw, hb⟩ := starts_mcp_not_web_browser h
    have e1 : (pyStrip t == "shell.exec") = false := beq_false_of_starts h (by decide)
    have e2 : (pyStrip t == "ppt.render") = false := beq_false_of_starts h (by decide)
    have e3 : (pyStrip t == "filesystem.list") = false := beq_false_of_starts h (by decide)
    have e4 : (pyStrip t == "filesystem.read_text") = false := beq_false_of_starts h (by decide)
    have e5 : (pyStrip t == "filesystem.stat") = false := beq_false_of_starts h (by decide)
    have e6 : (pyStrip t == "filesystem.write_text") = false := beq_false_of_starts h (by decide)
    have e7 : (pyStrip t == "filesystem.mkdir") = false := beq_false_of_starts h (by decide)
    have e8 : (pyStrip t == "filesystem.move") = false := beq_false_of_starts h (by decide)
    have e9 : (pyStrip t == "filesystem.delete") = false := beq_false_of_starts h (by decide)
    have e10 : (pyStrip t == "browser.click") = false := beq_false_of_starts h (by decide)
    simp [scope_for_tool, e1, e2, e3, e4, e5, e6, e7, e8, e9, e10, hw, hb, h]
  · intro hne hw hb hm
    have e1 : (pyStrip t == "shell.exec") = false :=
      beq_eq_false_iff_ne.mpr (hne ("shell.exec", "shell") (by simp [scopeExactRows]))
    have e2 : (pyStrip t == "ppt.render") = false :=
      beq_eq_false_iff_ne.mpr (hne ("ppt.render", "fs_write") (by simp [scopeExactRows]))
    have e3 : (pyStrip t == "filesystem.list") = false :=
      beq_eq_false_iff_ne.mpr (hne ("filesystem.list", "fs_read") (by simp [scopeExactRows]))
    have e4 : (pyStrip t == "filesystem.read_text") = false :=
      beq_eq_false_iff_ne.mpr
        (hne ("filesystem.read_text", "fs_read") (by simp [scopeExactRows]))
    have e5 : (pyStrip t == "filesystem.stat") = false :=
      beq_eq_false_iff_ne.mpr (hne ("filesystem.stat", "fs_read") (by simp [scopeExactRows]))
    have e6 : (pyStrip t == "filesystem.write_text") = false :=
      beq_eq_false_iff_ne.mpr
        (hne ("filesystem.write_text", "fs_write") (by simp [scopeExactRows]))
    have e7 : (pyStrip t == "filesystem.mkdir") = false :=
      beq_eq_false_iff_ne.mpr (hne ("filesystem.mkdir", "fs_write") (by simp [scopeExactRows]))
    have e8 : (pyStrip t == "filesystem.move") = false :=
      beq_eq_false_iff_ne.mpr (hne ("filesystem.move", "fs_write") (by simp [scopeExactRows]))
    have e9 : (pyStrip t == "filesystem.delete") = false :=
      beq_eq_false_iff_ne.mpr (hne ("filesystem.delete", "fs_delete") (by simp [scopeExactRows]))
    have e10 : (pyStrip t == "browser.click") = false :=
      beq_eq_false_iff_ne.mpr
        (hne ("browser.click", "browser_click") (by simp [scopeExactRows]))
    simp [scope_for_tool, e1, e2, e3, e4, e5, e6, e7, e8, e9, e10, hw, hb, hm]

/-- Concrete instantiation of `scope_for_tool_amended` at `web.search`. -/
theorem scope_for_tool_amended_witness :
    scope_for_tool "web.search" = "network" :=
  (scope_for_tool_amended "web.search").2.1 (by decide)

/-! ## `app/config.py` approval settings and `engine._tool_requires_approval` -/

/-- The four `REQUIRE_APPROVAL_*` settings; each defaults to `"true"` in
`config.py`. -/
structure Settings where
  require_approval_shell : Bool := true
  require_approval_fs_write : Bool := true
  require_approval_fs_delete : Bool := true
  require_approval_browser_click : Bool := true
deriving DecidableEq

/-- Settings with every override left at its default. -/
def defaultSettings : Settings := {}

/-- Translation of `engine._tool_requires_approval`.  `risky` models the tool
registry lookup: `some b` is `get_tool(name).risky`, `none` is a lookup
failure (which the code treats as requiring approval). -/
def toolRequiresApproval (st : Settings) (risky : String → Option Bool)
    (tool_name : String) : Bool :=
  if tool_name == "shell.exec" then st.require_approval_shell
  else if tool_name == "filesystem.write_text" || tool_name == "filesystem.mkdir"
      || tool_name == "filesystem.move" then st.require_approval_fs_write
  else if tool_name == "filesystem.delete" then st.require_approval_fs_delete
  else if tool_name == "browser.click" then st.require_approval_browser_click
  else
    match risky tool_name with
    | some b => b
    | none => true

/-! ## Workspace policy defaults -/

/-- The default policy the classic engine uses when no `WorkspacePolicy` row
exists, from `run_task`: `"always_allow" if scope == "network" else
"ask_once"`. -/
def classicDefaultPolicy (scope : String) : String :=
  if scope == "network" then "always_allow" else "ask_once"

/-- The default policy of the agent-loop backend's `_WorkbenchPolicyEngine`:
`"always_allow" if scope in {"network", "fs_read", "fs_write"} else
"ask_once"`. -/
def uakDefaultPolicy (scope : String) : String :=
  if scope == "network" || scope == "fs_read" || scope == "fs_write" then "always_allow"
  else "ask_once"

/-- The default-policy table exactly as the spec (and claim C3) states it:
`network`, `fs_read` and `fs_write` default to `always_allow`, every other
scope to `ask_once`.  Stated from the spec's words for comparison with the
two source defaults above. -/
def specDefaultPolicy (scope : String) : String :=
  if scope == "network" || scope == "fs_read" || scope == "fs_write" then "always_allow"
  else "ask_once"

/-! ## The approval gate of `engine.run_task` (lines 411-443)

The body of the step loop between `_update_step(status="running")` and the
tool invocation decides, for one step, whether to deny, pause for approval,
or run.  `polLookup` models `get_workspace_policy(ws_id, ·)`, `granted`
models `is_ask_once_scope_granted(task_id, ·)`, and `apStatus` models
`_approval_status_for_step(step_id)`. -/

inductive GateDecision where
  | deny : String → GateDecision
  | pause : GateDecision
  | run : GateDecision
deriving DecidableEq

/-- The classic engine's per-step approval gate. -/
def approvalGate (st : Settings) (risky : String → Option Bool)
    (polLookup : String → Option String) (granted : String → Bool)
    (apStatus : Option String) (stepRequiresApproval : Bool) (tool : String) : GateDecision :=
  let scope := scope_for_tool tool
  let ra0 := stepRequiresApproval || toolRequiresApproval st risky tool
  let ra :=
    if !ra0 && scope == "network" then
      match polLookup scope with
      | some p => p != "always_allow"
      | none => false
    else ra0
  if ra then
    let policy := (polLookup scope).getD (classicDefaultPolicy scope)
    if policy == "always_deny" then .deny ("Denied by policy (" ++ scope ++ ").")
    else if policy == "always_allow" || (policy == "ask_once" && granted scope) then .run
    else if apStatus != some "approved" then .pause
    else .run
  else .run

/-! ## Engine state model

The tables `cancel_task`, `approve_step` and `start_task_background` read
and write, as explicit state.  `launched` records the task ids for which a
background worker thread was started. -/

structure TaskRow where
  id : String
  status : String
  error : Option String
  backend : String
  backend_interrupt_id : Option String
  backend_resume_token : Option String
deriving DecidableEq

structure StepRow where
  id : String
  task_id : String
  tool : String
  status : String
  requires_approval : Bool
  error : Option String
deriving DecidableEq

structure ApprovalRow where
  id : String
  task_id : String
  step_id : String
  status : String
  requested_at : Nat
  decision : Option String
  reason : Option String
deriving DecidableEq

/-- One emitted/logged event; `status_field` is the `status` entry of a
`task_update` payload when present. -/
structure EventRec where
  etype : String
  task_id : String
  status_field : Option String
deriving DecidableEq

structure EngineState where
  tasks : List TaskRow
  steps : List StepRow
  approvals : List ApprovalRow
  grants : List (String × String)
  events : List EventRec
  launched : List String
deriving DecidableEq

def findTask (s : EngineState) (task_id : String) : Option TaskRow :=
  s.tasks.find? (fun t => t.id == task_id)

/-- Python `str(x or "").strip().lower()`. -/
def pyLowerStrip (s : String) : String := pyLower (pyStrip s)

/-- Translation of `engine._update_task` restricted to the fields the
modelled call sites touch: update the matching rows and append the emitted
`task_update` event (the code emits the event even when no row matched). -/
def updateTask (s : EngineState) (task_id : String) (f : TaskRow → TaskRow)
    (statusField : Option String) : EngineState :=
  { s with
    tasks := s.tasks.map (fun t => if t.id == task_id then f t else t),
    events := s.events ++ [⟨"task_update", task_id, statusField⟩] }

/-- Translation of `engine._update_step`: update the matching rows and append
the emitted `step_update` event (the code looks the task id up first). -/
def updateStep (s : EngineState) (step_id : String) (f : StepRow → StepRow) : EngineState :=
  let task_id := ((s.steps.find? (fun r => r.id == step_id)).map (fun r => r.task_id)).getD ""
  { s with
    steps := s.steps.map (fun r => if r.id == step_id then f r else r),
    events := s.events ++ [⟨"step_update", task_id, none⟩] }

/-- Translation of `engine.start_task_background`: refuse to start a worker
for a task whose status is already `canceled`; otherwise record the launch. -/
def start_task_background (s : EngineState) (task_id : String) : EngineState :=
  match findTask s task_id with
  | some t =>
    if pyLowerStrip t.status == "canceled" then s
    else { s with launched := s.launched ++ [task_id] }
  | none => { s with launched := s.launched ++ [task_id] }

/-- Translation of `engine.cancel_task`. -/
def cancel_task (s : EngineState) (task_id : String) (reason : Option String) :
    EngineState × Bool :=
  match findTask s task_id with
  | none => (s, false)
  | some row =>
    let status := pyLowerStrip row.status
    if status == "succeeded" || status == "failed" || status == "canceled" then (s, true)
    else
      let msg0 := pyStrip (reason.getD "")
      let msg := if msg0 == "" then "Canceled by user." else msg0
      let s1 := updateTask s task_id
        (fun t => { t with
          status := "canceled"
          error := some msg
          backend_interrupt_id := none
          backend_resume_token := none })
        (some "canceled")
      (s1, true)

/-- The most recent approval row for a step
(`SELECT * FROM approvals WHERE step_id=? ORDER BY requested_at DESC LIMIT 1`). -/
def latestApprovalFor (s : EngineState) (step_id : String) : Option ApprovalRow :=
  (s.approvals.filter (fun a => a.step_id == step_id)).foldl
    (fun acc a =>
      match acc with
      | none => some a
      | some b => if b.requested_at ≤ a.requested_at then some a else some b)
    none

/-- Translation of `permissions.is_ask_once_scope_granted` over the modelled
grant set. -/
def isGranted (s : EngineState) (task_id scope : String) : Bool :=
  s.grants.contains (task_id, scope)

/-- Translation of `engine.approve_step` (the classic-backend paths; the UAK
paths perform the same status updates and additionally resume the loop). -/
def approve_step (s : EngineState) (task_id step_id : String) (decision : String)
    (reason : Option String) : EngineState :=
  let status := if decision == "approve" then "approved" else "rejected"
  let target := latestApprovalFor s step_id
  let s1 := { s with
    approvals := s.approvals.map (fun (a : ApprovalRow) =>
      match target with
      | some tgt =>
        if a.id == tgt.id then
          { a with
            status := status
            decision := some decision
            reason := reason }
        else a
      | none => a) }
  if status == "approved" then
    let stepRow := s1.steps.find? (fun r => r.id == step_id)
    let s2 :=
      match stepRow with
      | some strow =>
        if strow.tool != "" then
          { s1 with grants := s1.grants ++ [(task_id, scope_for_tool strow.tool)],
                    events := s1.events ++ [⟨"approval_decided", task_id, none⟩] }
        else s1
      | none => s1
    let backend := ((findTask s2 task_id).map (fun t => pyLowerStrip t.backend)).getD ""
    if backend == "uak" then
      let s3 := updateTask s2 task_id (fun t => { t with status := "running" }) (some "running")
      { s3 with launched := s3.launched ++ [task_id] }
    else
      let s3 := updateTask s2 task_id (fun t => { t with status := "running" }) (some "running")
      start_task_background s3 task_id
  else
    let s2 := { s1 with events := s1.events ++ [⟨"approval_decided", task_id, none⟩] }
    let backend := ((findTask s2 task_id).map (fun t => pyLowerStrip t.backend)).getD ""
    let msg := pyStrip ("Rejected by user: " ++ reason.getD "")
    if backend == "uak" then
      let s3 := updateStep s2 step_id (fun r => { r with status := "failed", error := some msg })
      let s4 := updateTask s3 task_id (fun t => { t with status := "running", error := none })
        (some "running")
      { s4 with launched := s4.launched ++ [task_id] }
    else
      let s3 := updateStep s2 step_id (fun r => { r with status := "failed", error := some msg })
      updateTask s3 task_id (fun t => { t with status := "failed", error := some msg })
        (some "failed")

/-! ## Claim C3: default workspace policies -/

/-- C3 counterexample: with no `WorkspacePolicy` row, the classic engine's
default for scope `fs_write` is `ask_once`, not the `always_allow` the claim
states; concretely, a `filesystem.write_text` step that requires approval is
paused for approval rather than auto-allowed. -/
theorem classic_default_policy_claim_false :
    classicDefaultPolicy "fs_write" = "ask_once" ∧
    specDefaultPolicy "fs_write" = "always_allow" ∧
    classicDefaultPolicy "fs_write" ≠ specDefaultPolicy "fs_write" ∧
    approvalGate defaultSettings (fun _ => none) (fun _ => none) (fun _ => false) none false
      "filesystem.write_text" = GateDecision.pause := by
  refine ⟨by decide, by decide, by decide, by decide⟩

/-- C3 amended: the agent-loop backend's policy engine defaults to the spec's
table (`always_allow` for network, fs_read, fs_write; `ask_once` otherwise),
but the classic engine's approval gate defaults to `always_allow` only for
scope `network`: with no policy row, a network-scoped step that requires
approval runs unattended, while a step of any other scope that requires
approval and holds no ask-once grant pauses in `waiting_approval`. -/
theorem default_policy_amended (st : Settings) (risky : String → Option Bool)
    (polLookup : String → Option String) (granted : String → Bool)
    (apStatus : Option String) (tool : String) :
    (∀ scope, uakDefaultPolicy scope = specDefaultPolicy scope) ∧
    (scope_for_tool tool = "network" → polLookup (scope_for_tool tool) = none →
      approvalGate st risky polLookup granted apStatus true tool = GateDecision.run) ∧
    (scope_for_tool tool ≠ "network" → polLookup (scope_for_tool tool) = none →
      granted (scope_for_tool tool) = false → apStatus ≠ some "approved" →
      approvalGate st risky polLookup granted apStatus true tool = GateDecision.pause) := by
  refine ⟨fun scope => rfl, ?_, ?_⟩
  · intro hs hp
    have hp' : polLookup "network" = none := hs ▸ hp
    simp only [approvalGate, hs, hp']
    rfl
  · intro hσ hp hg ha
    have hb : (scope_for_tool tool == "network") = false := beq_eq_false_iff_ne.mpr hσ
    have hne : (apStatus != some "approved") = true := bne_iff_ne.mpr ha
    simp only [approvalGate, hp, hb, hg, hne, classicDefaultPolicy]
    simp

/-- Concrete instantiation of `default_policy_amended`: with no policy rows
and no grants, a `shell.exec` step pauses for approval. -/
theorem default_policy_amended_witness :
    approvalGate defaultSettings (fun _ => none) (fun _ => none) (fun _ => false) none true
      "shell.exec" = GateDecision.pause :=
  (default_policy_amended defaultSettings (fun _ => none) (fun _ => none) (fun _ => false)
    none "shell.exec").2.2 (by decide) rfl rfl (by decide)

/-! ## Claim C1: cancellation is not absorbing under `approve_step` -/

/-- A task in `waiting_approval` with one step paused on a pending approval. -/
def waitingState : EngineState :=
  { tasks := [{ id := "t1", status := "waiting_approval", error := none, backend := "classic",
                backend_interrupt_id := none, backend_resume_token := none }],
    steps := [{ id := "s1", task_id := "t1", tool := "shell.exec", status := "waiting_approval",
                requires_approval := true, error := none }],
    approvals := [{ id := "a1", task_id := "t1", step_id := "s1", status := "pending",
                    requested_at := 1, decision := none, reason := none }],
    grants := [], events := [], launched := [] }

/-- `waitingState` after `cancel_task`. -/
def canceledState : EngineState := (cancel_task waitingState "t1" none).1

/-- `canceledState` after a subsequent `approve_step` with decision
`approve` on the stale pending approval. -/
def resumedState : EngineState := approve_step canceledState "t1" "s1" "approve" none

/-- C1: evaluating the code at the failing input.  Cancelling the waiting
task marks it `canceled`, but `approve_step` then sets the status back to
`running`, emits a further `task_update` event, and launches a worker that
resumes execution — the terminal state is not absorbing. -/
theorem approve_step_resumes_canceled_task :
    (cancel_task waitingState "t1" none).2 = true ∧
    ((findTask canceledState "t1").map (fun t => t.status)) = some "canceled" ∧
    canceledState.launched = [] ∧
    ((findTask resumedState "t1").map (fun t => t.status)) = some "running" ∧
    resumedState.launched = ["t1"] ∧
    (⟨"task_update", "t1", some "running"⟩ : EventRec) ∈ resumedState.events := by
  refine ⟨by decide, by decide, by decide, by decide, by decide, by decide⟩

/-! ## Claim C10: `cancel_task` return value and frame -/

/-- C10: `cancel_task` returns `False` iff the task row is missing; on a task
already in a terminal state it returns `True` and leaves the state (rows and
event log alike) untouched; otherwise it returns `True`, marks the task
`canceled` with the trimmed reason (default `"Canceled by user."`), and emits
exactly one `task_update` event. -/
theorem cancel_task_spec (s : EngineState) (task_id : String) (reason : Option String) :
    ((cancel_task s task_id reason).2 = false ↔ findTask s task_id = none) ∧
    (∀ t, findTask s task_id = some t →
      (pyLowerStrip t.status = "succeeded" ∨ pyLowerStrip t.status = "failed" ∨
        pyLowerStrip t.status = "canceled") →
      cancel_task s task_id reason = (s, true)) ∧
    (∀ t, findTask s task_id = some t →
      pyLowerStrip t.status ≠ "succeeded" → pyLowerStrip t.status ≠ "failed" →
      pyLowerStrip t.status ≠ "canceled" →
      (cancel_task s task_id reason).2 = true ∧
      (∀ r ∈ (cancel_task s task_id reason).1.tasks, r.id = task_id →
        r.status = "canceled" ∧
        r.error = some (if pyStrip (reason.getD "") = "" then "Canceled by user."
                        else pyStrip (reason.getD ""))) ∧
      (cancel_task s task_id reason).1.events =
        s.events ++ [⟨"task_update", task_id, some "canceled"⟩]) := by
  refine ⟨?_, ?_, ?_⟩
  · cases h : findTask s task_id with
    | none => simp [cancel_task, h]
    | some t =>
      simp only [cancel_task, h]
      split <;> simp
  · intro t h hterm
    have hc : (pyLowerStrip t.status == "succeeded" || pyLowerStrip t.status == "failed"
        || pyLowerStrip t.status == "canceled") = true := by
      rcases hterm with h1 | h1 | h1 <;> simp [h1]
    simp [cancel_task, h, hc]
  · intro t h h1 h2 h3
    have hc : (pyLowerStrip t.status == "succeeded" || pyLowerStrip t.status == "failed"
        || pyLowerStrip t.status == "canceled") = false := by
      simp [beq_eq_false_iff_ne.mpr h1, beq_eq_false_iff_ne.mpr h2, beq_eq_false_iff_ne.mpr h3]
    refine ⟨by simp [cancel_task, h, hc], ?_, by simp [cancel_task, h, hc, updateTask]⟩
    intro r hr hid
    simp only [cancel_task, h, hc, updateTask, Bool.false_eq_true, if_false] at hr
    simp only [List.mem_map] at hr
    obtain ⟨a, ha, hra⟩ := hr
    by_cases hb : (a.id == task_id) = true
    · rw [if_pos hb] at hra
      subst hra
      constructor
      · rfl
      · by_cases hm : pyStrip (reason.getD "") = ""
        · simp only [if_pos hm]
          have : (pyStrip (reason.getD "") == "") = true := by simp [hm]
          simp [this]
        · simp only [if_neg hm]
          have : (pyStrip (reason.getD "") == "") = false := beq_eq_false_iff_ne.mpr hm
          simp [this]
    · rw [if_neg hb] at hra
      subst hra
      exact absurd hid (by simpa using hb)

/-- Concrete instantiation of `cancel_task_spec`: cancelling the waiting task
with a padded reason trims it; cancelling a missing task returns `False`. -/
theorem cancel_task_spec_witness :
    (cancel_task waitingState "missing" none).2 = false ∧
    (∀ r ∈ (cancel_task waitingState "t1" (some "  stop  ")).1.tasks, r.id = "t1" →
      r.status = "canceled" ∧ r.error = some "stop") := by
  constructor
  · exact (cancel_task_spec waitingState "missing" none).1.mpr (by decide)
  · intro r hr hid
    have h := ((cancel_task_spec waitingState "t1" (some "  stop  ")).2.2
      ⟨"t1", "waiting_approval", none, "classic", none, none⟩ (by decide)
      (by decide) (by decide) (by decide)).2.1 r hr hid
    simpa using h

/-! ## Claim C5: ask-once grants within a task -/

/-- C5: after `approve_step` decides `approve` on a step whose tool is
non-empty, the tool's scope is in the task's ask-once grant set, and the
approval gate lets any further step of the same task through without pausing
whenever that scope's effective policy is `ask_once`: it neither creates an
approval row nor enters `waiting_approval`. -/
theorem ask_once_grant_spec
    (s : EngineState) (task_id step_id : String) (reason : Option String)
    (strow : StepRow) (st : Settings) (risky : String → Option Bool)
    (polLookup : String → Option String) (apStatus : Option String)
    (reqFlag : Bool) (tool2 : String)
    (hfind : s.steps.find? (fun r => r.id == step_id) = some strow)
    (htool : (strow.tool != "") = true)
    (hscope : scope_for_tool tool2 = scope_for_tool strow.tool)
    (hpol : polLookup (scope_for_tool tool2) = some "ask_once") :
    isGranted (approve_step s task_id step_id "approve" reason) task_id
      (scope_for_tool strow.tool) = true ∧
    approvalGate st risky polLookup
      (fun scope => isGranted (approve_step s task_id step_id "approve" reason) task_id scope)
      apStatus reqFlag tool2 = GateDecision.run := by
  have hgrants : (approve_step s task_id step_id "approve" reason).grants =
      s.grants ++ [(task_id, scope_for_tool strow.tool)] := by
    simp only [approve_step, hfind, htool, if_true]
    rw [if_pos (show (("approve" == "approve") : Bool) = true from rfl)]
    rw [if_pos (show (("approved" == "approved") : Bool) = true from rfl)]
    split
    · rfl
    · unfold start_task_background
      split
      · split <;> rfl
      · rfl
  have hg : isGranted (approve_step s task_id step_id "approve" reason) task_id
      (scope_for_tool strow.tool) = true := by
    simp [isGranted, hgrants, List.contains, List.elem_iff]
  refine ⟨hg, ?_⟩
  have hg2 : isGranted (approve_step s task_id step_id "approve" reason) task_id
      (scope_for_tool tool2) = true := by rw [hscope]; exact hg
  simp only [approvalGate, hpol, hg2]
  split
  · simp
  · split <;> rfl

/-- A running task with one step paused on a pending `filesystem.delete`
approval, for instantiating the ask-once theorems. -/
def grantWitnessState : EngineState :=
  { tasks := [{ id := "t2", status := "waiting_approval", error := none, backend := "classic",
                backend_interrupt_id := none, backend_resume_token := none }],
    steps := [{ id := "s9", task_id := "t2", tool := "filesystem.delete",
                status := "waiting_approval", requires_approval := true, error := none }],
    approvals := [{ id := "a9", task_id := "t2", step_id := "s9", status := "pending",
                    requested_at := 1, decision := none, reason := none }],
    grants := [], events := [], launched := [] }

/-- The step row of `grantWitnessState`. -/
def grantWitnessStep : StepRow :=
  { id := "s9", task_id := "t2", tool := "filesystem.delete",
    status := "waiting_approval", requires_approval := true, error := none }

/-- Concrete instantiation of `ask_once_grant_spec`: after approving the
`filesystem.delete` step, scope `fs_delete` is granted and a second
`filesystem.delete` step runs without pausing. -/
theorem ask_once_grant_spec_witness :
    isGranted (approve_step grantWitnessState "t2" "s9" "approve" none) "t2"
      (scope_for_tool grantWitnessStep.tool) = true ∧
    approvalGate defaultSettings (fun _ => none) (fun _ => some "ask_once")
      (fun scope => isGranted (approve_step grantWitnessState "t2" "s9" "approve" none)
        "t2" scope)
      none false "filesystem.delete" = GateDecision.run :=
  ask_once_grant_spec grantWitnessState "t2" "s9" none grantWitnessStep defaultSettings
    (fun _ => none) (fun _ => some "ask_once") none false "filesystem.delete"
    (by decide) (by decide) (by decide) rfl

/-! ## `engine._insert_steps` and `engine._apply_patch`

The steps table of one task, as a list of rows; only the columns the patch
logic touches are modelled. -/

/-- One entry of a patch's `add_steps`. -/
structure AddStep where
  name : Option String
  tool : String
  requires_approval : Bool
deriving DecidableEq

/-- One row of the `steps` table (the columns patching reads or writes). -/
structure PStep where
  idx : Int
  name : String
  tool : String
  requires_approval : Bool
deriving DecidableEq

/-- One row inserted by `_insert_steps`: Python `s.get("name") or
f"Step {idx+1}"` defaults the name when it is missing or empty. -/
def mkStepRow (a : AddStep) (idx : Int) : PStep :=
  { idx := idx,
    name :=
      match a.name with
      | some n => if n == "" then "Step " ++ toString (idx + 1) else n
      | none => "Step " ++ toString (idx + 1),
    tool := a.tool,
    requires_approval := a.requires_approval }

/-- Translation of `engine._insert_steps`: insert the given steps with
consecutive indices starting at `start`. -/
def insertSteps : List AddStep → Int → List PStep
  | [], _ => []
  | a :: rest, start => mkStepRow a start :: insertSteps rest (start + 1)

/-- An Executor patch: `{reason, add_steps, replace_steps_from_idx,
remove_steps}` (the reason plays no role in `_apply_patch`). -/
structure PlanPatch where
  replace_steps_from_idx : Option Int
  remove_steps : List Int
  add_steps : List AddStep
deriving DecidableEq

/-- The `for idx in remove_steps: DELETE ... WHERE idx=?` loop. -/
def removeIdxs (steps : List PStep) (rm : List Int) : List PStep :=
  rm.foldl (fun acc i => acc.filter (fun r => !(r.idx == i))) steps

/-- `SELECT MAX(idx) FROM steps WHERE task_id=?`. -/
def maxIdx : List PStep → Option Int
  | [] => none
  | s :: t =>
    some (match maxIdx t with
          | none => s.idx
          | some m => max s.idx m)

/-- Translation of `engine._apply_patch`: delete the listed indices, then
either replace from `replace_steps_from_idx` or append after the current
maximum index (0 when the task has no steps). -/
def apply_patch (steps : List PStep) (p : PlanPatch) : List PStep :=
  let s1 := removeIdxs steps p.remove_steps
  match p.replace_steps_from_idx with
  | some r => s1.filter (fun row => decide (row.idx < r)) ++ insertSteps p.add_steps r
  | none =>
    let start :=
      match maxIdx s1 with
      | some m => m + 1
      | none => 0
    s1 ++ insertSteps p.add_steps start

/-- The removal loop is one filter by non-membership in `remove_steps`. -/
theorem removeIdxs_eq_filter (rm : List Int) (steps : List PStep) :
    removeIdxs steps rm = steps.filter (fun r => !(rm.contains r.idx)) := by
  induction rm generalizing steps with
  | nil => simp [removeIdxs]
  | cons i t ih =>
    show removeIdxs (steps.filter (fun r => !(r.idx == i))) t = _
    rw [ih, List.filter_filter]
    apply List.filter_congr
    intro a _
    show (!(t.contains a.idx) && !(a.idx == i)) = !((i :: t).contains a.idx)
    by_cases h1 : a.idx = i
    · simp [h1, List.contains]
    · have hb : (a.idx == i) = false := beq_eq_false_iff_ne.mpr h1
      simp only [List.contains, List.elem_cons, hb]
      simp

/-- `_insert_steps` produces exactly one row per added step. -/
theorem insertSteps_length (adds : List AddStep) (start : Int) :
    (insertSteps adds start).length = adds.length := by
  induction adds generalizing start with
  | nil => rfl
  | cons a rest ih => simp [insertSteps, ih]

/-- Rows inserted from `start` carry indices at least `start`. -/
theorem insertSteps_le_idx (adds : List AddStep) (start : Int) :
    ∀ q ∈ insertSteps adds start, start ≤ q.idx := by
  induction adds generalizing start with
  | nil => intro q hq; simp [insertSteps] at hq
  | cons a rest ih =>
    intro q hq
    simp only [insertSteps, List.mem_cons] at hq
    rcases hq with rfl | hq
    · exact le_refl _
    · have := ih (start + 1) q hq
      omega

/-- C7: `_apply_patch` first deletes the rows whose idx is listed in
`remove_steps`; with `replace_steps_from_idx = r` it then keeps only
surviving rows with idx < r and inserts `add_steps` from r; without it, it
appends `add_steps` after the maximum surviving idx (0 when none survive).
Removal applies even when both fields are present, so a listed idx below the
replace point is deleted as well. -/
theorem apply_patch_spec (steps : List PStep) (p : PlanPatch) :
    (∀ r, p.replace_steps_from_idx = some r →
      apply_patch steps p =
        steps.filter (fun row => !(p.remove_steps.contains row.idx) && decide (row.idx < r))
          ++ insertSteps p.add_steps r) ∧
    (p.replace_steps_from_idx = none →
      apply_patch steps p =
        steps.filter (fun row => !(p.remove_steps.contains row.idx))
          ++ insertSteps p.add_steps
              (match maxIdx (steps.filter (fun row => !(p.remove_steps.contains row.idx))) with
               | some m => m + 1
               | none => 0)) ∧
    (∀ r, p.replace_steps_from_idx = some r →
      ∀ row ∈ apply_patch steps p, row.idx < r → row.idx ∉ p.remove_steps) := by
  have heq : ∀ r, p.replace_steps_from_idx = some r →
      apply_patch steps p =
        steps.filter (fun row => !(p.remove_steps.contains row.idx) && decide (row.idx < r))
          ++ insertSteps p.add_steps r := by
    intro r hr
    simp only [apply_patch, removeIdxs_eq_filter, hr, List.filter_filter]
    congr 1
    apply List.filter_congr
    intro a _
    exact Bool.and_comm _ _
  refine ⟨heq, ?_, ?_⟩
  · intro hr
    simp only [apply_patch, removeIdxs_eq_filter, hr]
  · intro r hr row hrow hlt hmem
    rw [heq r hr] at hrow
    rcases List.mem_append.mp hrow with hleft | hright
    · have hpred := List.of_mem_filter hleft
      simp at hpred
      exact hpred.1 hmem
    · have := insertSteps_le_idx p.add_steps r row hright
      omega

end OpenAgent

namespace OpenAgent

/-- A three-step plan for instantiating the patch theorems. -/
def demoSteps : List PStep :=
  [{ idx := 0, name := "a", tool := "web.search", requires_approval := false },
   { idx := 1, name := "b", tool := "filesystem.write_text", requires_approval := true },
   { idx := 2, name := "c", tool := "shell.exec", requires_approval := true }]

/-- A patch carrying both `remove_steps` and `replace_steps_from_idx`. -/
def demoPatch : PlanPatch :=
  { replace_steps_from_idx := some 2,
    remove_steps := [0],
    add_steps := [{ name := some "d", tool := "shell.exec", requires_approval := true }] }

/-- Concrete instantiation of `apply_patch_spec`: the patch removes idx 0
(below the replace point), keeps idx 1, and inserts the new step at idx 2. -/
theorem apply_patch_spec_witness :
    apply_patch demoSteps demoPatch =
      demoSteps.filter
        (fun row => !(demoPatch.remove_steps.contains row.idx) && decide (row.idx < 2))
        ++ insertSteps demoPatch.add_steps 2 ∧
    (∀ row ∈ apply_patch demoSteps demoPatch, row.idx < 2 → row.idx ∉ demoPatch.remove_steps) :=
  ⟨(apply_patch_spec demoSteps demoPatch).1 2 rfl,
   fun row hrow hlt => (apply_patch_spec demoSteps demoPatch).2.2 2 rfl row hrow hlt⟩

/-! ## Claim C2: the 25-step plan cap -/

/-- A patch appending 26 steps at once. -/
def bigPatch : PlanPatch :=
  { replace_steps_from_idx := none,
    remove_steps := [],
    add_steps := List.replicate 26 { name := none, tool := "shell.exec",
                                     requires_approval := false } }

/-- C2 counterexample: `_apply_patch` enforces no size cap — applying a patch
with 26 `add_steps` to an empty plan leaves 26 step rows, exceeding the
claimed bound of 25.  The only occurrence of the cap is the sentence
`Do not exceed 25 total steps after patch.` in the Executor's LLM prompt. -/
theorem plan_cap_claim_false :
    (apply_patch [] bigPatch).length = 26 ∧ ¬ (apply_patch [] bigPatch).length ≤ 25 := by
  refine ⟨by decide, by decide⟩

/-- C2 amended: `_apply_patch` imposes no fixed cap; the row count after a
patch is bounded only by the previous count plus the number of added steps
(removal and replacement can only shrink the survivors). -/
theorem plan_cap_amended (steps : List PStep) (p : PlanPatch) :
    (apply_patch steps p).length ≤ steps.length + p.add_steps.length := by
  unfold apply_patch
  rw [removeIdxs_eq_filter]
  cases hrep : p.replace_steps_from_idx with
  | some r =>
    simp only [List.length_append, insertSteps_length]
    have h1 := List.length_filter_le (fun row => decide (row.idx < r))
      (steps.filter (fun row => !(p.remove_steps.contains row.idx)))
    have h2 := List.length_filter_le (fun row => !(p.remove_steps.contains row.idx)) steps
    omega
  | none =>
    simp only [List.length_append, insertSteps_length]
    have h2 := List.length_filter_le (fun row => !(p.remove_steps.contains row.idx)) steps
    omega

end OpenAgent

namespace OpenAgent

/-! ## `main.api_task_continue` and its `_parse_approval_decision` -/

/-- The reject keywords checked by containment ("拒绝", "不同意", "不允许"). -/
def rejectKeywords : List String := ["拒绝", "不同意", "不允许"]

/-- The reject words checked by exact lowercase match. -/
def rejectWords : List String := ["no", "n", "reject", "deny", "refuse"]

/-- The approve keywords checked by containment ("同意", "允许"). -/
def approveKeywords : List String := ["同意", "允许"]

/-- The approve words checked by exact lowercase match. -/
def approveWords : List String := ["yes", "y", "ok", "approve", "allow"]

/-- Translation of `_parse_approval_decision` (main.py): reject containment
first (so "不同意" is a rejection even though it contains "同意"), then exact
lowercase reject words, then approve containment, then exact lowercase
approve words, else `none`. -/
def parseApprovalDecision (s : String) : Option String :=
  let raw := pyStrip s
  if raw == "" then none
  else if rejectKeywords.any (fun k => strContains raw k) then some "reject"
  else
    let low := pyLower raw
    if rejectWords.contains low then some "reject"
    else if approveKeywords.any (fun k => strContains raw k) then some "approve"
    else if approveWords.contains low then some "approve"
    else none

/-- The newest pending approval's step id for a task
(`SELECT step_id FROM approvals WHERE task_id=? AND status='pending'
ORDER BY requested_at DESC LIMIT 1`). -/
def latestPendingApprovalStep (s : EngineState) (task_id : String) : Option String :=
  ((s.approvals.filter (fun a => a.task_id == task_id && a.status == "pending")).foldl
    (fun acc a =>
      match acc with
      | none => some a
      | some b => if b.requested_at ≤ a.requested_at then some a else some b)
    none).map (fun a => a.step_id)

/-- Translation of `main.api_task_continue`: in `waiting_approval` the message
is classified and routed to `approve_step`; unknown messages raise a client
error (HTTP 409) without touching any state.  The returned `Option String` is
the decision reported to the client. -/
def apiTaskContinue (s : EngineState) (task_id msg0 : String) :
    Except String (EngineState × Option String) :=
  let msg := pyStrip msg0
  if msg == "" then .error "message required"
  else
    match findTask s task_id with
    | none => .error "task not found"
    | some t =>
      let status := pyLowerStrip t.status
      if status == "waiting_approval" then
        match parseApprovalDecision msg with
        | none => .error "task is waiting approval; reply approve/reject or use the approval UI"
        | some decision =>
          let step_id := pyStrip ((latestPendingApprovalStep s task_id).getD "")
          if step_id == "" then
            .error "task is waiting approval but no pending approval found"
          else .ok (approve_step s task_id step_id decision (some msg), some decision)
      else if status == "queued" || status == "planning" || status == "running" then
        .error "task is busy"
      else if pyLowerStrip t.backend != "uak" then
        .error "continue is supported only for UAK backend tasks"
      else .ok ({ s with launched := s.launched ++ [task_id] }, none)

/-- C9: rejection takes precedence over approval in the message classifier —
any contained reject keyword or exact lowercase reject word yields `reject`
(in particular "不同意" is `reject`, not `approve`, although it contains
"同意"); only otherwise do the approve keywords or words yield `approve`;
and a message in neither class makes `api_task_continue` on a
`waiting_approval` task return a client error with the state untouched. -/
theorem parse_approval_decision_spec (s : String) (es : EngineState) (task_id : String) :
    (rejectKeywords.any (fun k => strContains (pyStrip s) k) = true →
      parseApprovalDecision s = some "reject") ∧
    (rejectWords.contains (pyLower (pyStrip s)) = true →
      parseApprovalDecision s = some "reject") ∧
    parseApprovalDecision "不同意" = some "reject" ∧
    (rejectKeywords.any (fun k => strContains (pyStrip s) k) = false →
      rejectWords.contains (pyLower (pyStrip s)) = false →
      (approveKeywords.any (fun k => strContains (pyStrip s) k) = true ∨
        approveWords.contains (pyLower (pyStrip s)) = true) →
      parseApprovalDecision s = some "approve") ∧
    (∀ t, findTask es task_id = some t → pyLowerStrip t.status = "waiting_approval" →
      (pyStrip s == "") = false → parseApprovalDecision (pyStrip s) = none →
      apiTaskContinue es task_id s =
        .error "task is waiting approval; reply approve/reject or use the approval UI") := by
  have key1 : (rejectKeywords.any fun k => strContains (pyStrip s) k) = true →
      parseApprovalDecision s = some "reject" := by
    intro h
    by_cases hr : pyStrip s = ""
    · rw [hr] at h
      exact absurd h (by decide)
    · have hr' : (pyStrip s == "") = false := beq_eq_false_iff_ne.mpr hr
      have hex : ∃ x ∈ rejectKeywords, strContains (pyStrip s) x = true := by simpa using h
      simp [parseApprovalDecision, hr', hex]
  have key2 : rejectWords.contains (pyLower (pyStrip s)) = true →
      parseApprovalDecision s = some "reject" := by
    intro h
    by_cases hr : pyStrip s = ""
    · rw [hr] at h
      exact absurd h (by decide)
    · have hr' : (pyStrip s == "") = false := beq_eq_false_iff_ne.mpr hr
      have hmem : pyLower (pyStrip s) ∈ rejectWords := by simpa using h
      by_cases ha : (rejectKeywords.any fun k => strContains (pyStrip s) k) = true
      · have hex : ∃ x ∈ rejectKeywords, strContains (pyStrip s) x = true := by simpa using ha
        simp [parseApprovalDecision, hr', hex]
      · have hnex : ¬ ∃ x ∈ rejectKeywords, strContains (pyStrip s) x = true := by
          simpa using ha
        simp [parseApprovalDecision, hr', hnex, hmem]
  refine ⟨key1, key2, by decide, ?_, ?_⟩
  · intro h1 h2 h3
    by_cases hr : pyStrip s = ""
    · rcases h3 with h3 | h3 <;> rw [hr] at h3 <;> exact absurd h3 (by decide)
    · have hr' : (pyStrip s == "") = false := beq_eq_false_iff_ne.mpr hr
      have hnex : ¬ ∃ x ∈ rejectKeywords, strContains (pyStrip s) x = true := by simpa using h1
      have hnm : pyLower (pyStrip s) ∉ rejectWords := by simpa using h2
      rcases h3 with h3 | h3
      · have hex : ∃ x ∈ approveKeywords, strContains (pyStrip s) x = true := by simpa using h3
        simp [parseApprovalDecision, hr', hnex, hnm, hex]
      · have hmem : pyLower (pyStrip s) ∈ approveWords := by simpa using h3
        by_cases ha : (approveKeywords.any fun k => strContains (pyStrip s) k) = true
        · have hex : ∃ x ∈ approveKeywords, strContains (pyStrip s) x = true := by simpa using ha
          simp [parseApprovalDecision, hr', hnex, hnm, hex]
        · have hnex2 : ¬ ∃ x ∈ approveKeywords, strContains (pyStrip s) x = true := by
            simpa using ha
          simp [parseApprovalDecision, hr', hnex, hnm, hnex2, hmem]
  · intro t hfind hstatus hne hparse
    have hst : (pyLowerStrip t.status == "waiting_approval") = true := by simp [hstatus]
    simp [apiTaskContinue, hne, hfind, hst, hparse]

/-- Concrete instantiation of `parse_approval_decision_spec`: "不允许 ok" is a
rejection despite also containing the approve word "ok" inside, and an
unclassifiable message on the waiting task yields the client error. -/
theorem parse_approval_decision_spec_witness :
    parseApprovalDecision "不允许 ok" = some "reject" ∧
    apiTaskContinue waitingState "t1" "hmm" =
      .error "task is waiting approval; reply approve/reject or use the approval UI" :=
  ⟨(parse_approval_decision_spec "不允许 ok" waitingState "t1").1 (by decide),
   (parse_approval_decision_spec "hmm" waitingState "t1").2.2.2.2
     ⟨"t1", "waiting_approval", none, "classic", none, none⟩
     (by decide) (by decide) (by decide) (by decide)⟩

end OpenAgent

namespace OpenAgent

/-! ## `runner/planner.py`: `generate_plan`

JSON values, as the planner's validation logic sees them.  The two LLM
responses are modelled post-parse: `some j` when `_extract_json` succeeds on
the response text and `none` when it raises (no braces, or invalid JSON). -/

inductive Json where
  | null : Json
  | jb : Bool → Json
  | jn : Int → Json
  | js : String → Json
  | jarr : List Json → Json
  | jobj : List (String × Json) → Json

/-- Key lookup on a JSON object (`plan["steps"]` / `"k" in plan`). -/
def jGet : Json → String → Option Json
  | .jobj kvs, k => (kvs.find? (fun p => p.1 == k)).map (fun p => p.2)
  | _, _ => none

/-- Python `"k" in s` for an object. -/
def hasKey (j : Json) (k : String) : Bool := (jGet j k).isSome

/-- `isinstance(x, list)`. -/
def isArr : Json → Bool
  | .jarr _ => true
  | _ => false

/-- Python `s["tool"] in allowed_tools` over a string list: a non-string tool
value is never in the list. -/
def toolAllowed : Option Json → List String → Bool
  | some (.js t), allowed => allowed.contains t
  | _, _ => false

/-- Dict assignment `j[k] = v` (replace the key or append it). -/
def objSet : Json → String → Json → Json
  | .jobj kvs, k, v =>
    if kvs.any (fun p => p.1 == k) then
      .jobj (kvs.map (fun p => if p.1 == k then (k, v) else p))
    else .jobj (kvs ++ [(k, v)])
  | j, _, _ => j

/-- The per-step validation loop of `generate_plan`: every step must carry
`tool` and `args`; if `allowed_tools` is non-empty the tool must be in it;
a missing `requires_approval` defaults to `False`. -/
def validateSteps (allowed : List String) : List Json → Except String (List Json)
  | [] => .ok []
  | s :: rest =>
    if (!(hasKey s "tool") || !(hasKey s "args")) then
      .error "Each step must include tool and args"
    else if ((allowed != []) && !(toolAllowed (jGet s "tool") allowed)) then
      .error "Step tool not allowed"
    else
      let s' := if hasKey s "requires_approval" then s
                else objSet s "requires_approval" (.jb false)
      match validateSteps allowed rest with
      | .error e => .error e
      | .ok rest' => .ok (s' :: rest')

/-- The whole-plan validation of `generate_plan`: `steps` must be present, a
list, and non-empty; then the step loop runs and the `artifacts`/`summary`
defaults are filled in. -/
def validatePlan (plan : Json) (allowed : List String) : Except String Json :=
  match jGet plan "steps" with
  | some (.jarr l) =>
    if l.length == 0 then .error "Plan must include non-empty steps"
    else
      match validateSteps allowed l with
      | .error e => .error e
      | .ok l' =>
        let p1 := objSet plan "steps" (.jarr l')
        let p2 := if hasKey p1 "artifacts" then p1 else objSet p1 "artifacts" (.jarr [])
        let p3 := if hasKey p2 "summary" then p2 else objSet p2 "summary" (.js "Run")
        .ok p3
  | some _ => .error "Plan must include non-empty steps"
  | none => .error "Plan must include non-empty steps"

/-- Translation of `generate_plan`'s control flow over the parsed responses:
parse the first response; on failure make exactly one repair call and parse
it; on a second failure the run fails with the planning error.  The second
component counts the LLM calls made (1 without repair, 2 with). -/
def generate_plan (resp1 resp2 : Option Json) (allowed : List String) :
    Except String Json × Nat :=
  match resp1 with
  | some plan => (validatePlan plan allowed, 1)
  | none =>
    match resp2 with
    | some plan => (validatePlan plan allowed, 2)
    | none => (.error "Unable to parse JSON from planner output", 2)

/-- Whether an `Except` is an error. -/
def isErr {α β : Type} : Except α β → Bool
  | .error _ => true
  | .ok _ => false

/-- A bad step anywhere in the list makes the step loop fail. -/
theorem validateSteps_err_of_mem (allowed : List String) (l : List Json) (stp : Json)
    (hmem : stp ∈ l)
    (hbad : (!(hasKey stp "tool") || !(hasKey stp "args")) = true ∨
      ((allowed != []) && !(toolAllowed (jGet stp "tool") allowed)) = true) :
    isErr (validateSteps allowed l) = true := by
  induction l with
  | nil => exact absurd hmem (List.not_mem_nil stp)
  | cons hd tl ih =>
    rcases List.mem_cons.mp hmem with rfl | hmem'
    · by_cases h1 : (!(hasKey stp "tool") || !(hasKey stp "args")) = true
      · simp [validateSteps, h1, isErr]
      · have h1' : (!(hasKey stp "tool") || !(hasKey stp "args")) = false := by
          revert h1; cases (!(hasKey stp "tool") || !(hasKey stp "args")) <;> simp
        have h2 : ((allowed != []) && !(toolAllowed (jGet stp "tool") allowed)) = true := by
          rcases hbad with hb | hb
          · rw [hb] at h1'; exact absurd h1' (by simp)
          · exact hb
        simp [validateSteps, h1', h2, isErr]
    · by_cases h1 : (!(hasKey hd "tool") || !(hasKey hd "args")) = true
      · simp [validateSteps, h1, isErr]
      · have h1' : (!(hasKey hd "tool") || !(hasKey hd "args")) = false := by
          revert h1; cases (!(hasKey hd "tool") || !(hasKey hd "args")) <;> simp
        by_cases h2 : ((allowed != []) && !(toolAllowed (jGet hd "tool") allowed)) = true
        · simp [validateSteps, h1', h2, isErr]
        · have h2' : ((allowed != []) && !(toolAllowed (jGet hd "tool") allowed)) = false := by
            revert h2
            cases ((allowed != []) && !(toolAllowed (jGet hd "tool") allowed)) <;> simp
          have htl := ih hmem'
          cases hrec : validateSteps allowed tl with
          | error e => simp [validateSteps, h1', h2', hrec, isErr]
          | ok l' => rw [hrec] at htl; exact absurd htl (by simp [isErr])

/-- C6: `generate_plan` makes exactly one repair call when the first response
fails to parse, and fails with the planning error (no further retry) when the
repair also fails to parse; a successfully parsed response costs a single
call and is validated: missing/non-list/empty `steps`, a step without `tool`
or `args`, or (with a non-empty allowlist) a step whose tool is not allowed,
each fail the run with a planning error. -/
theorem generate_plan_spec (resp2 : Option Json) (allowed : List String)
    (plan : Json) (l : List Json) (stp : Json) :
    generate_plan none none allowed =
      (.error "Unable to parse JSON from planner output", 2) ∧
    (generate_plan (some plan) resp2 allowed).2 = 1 ∧
    (∀ p2, (generate_plan none (some p2) allowed).2 = 2) ∧
    (jGet plan "steps" = none →
      isErr (generate_plan (some plan) resp2 allowed).1 = true) ∧
    (∀ j, jGet plan "steps" = some j → isArr j = false →
      isErr (generate_plan (some plan) resp2 allowed).1 = true) ∧
    (jGet plan "steps" = some (.jarr []) →
      isErr (generate_plan (some plan) resp2 allowed).1 = true) ∧
    (jGet plan "steps" = some (.jarr l) → stp ∈ l →
      (hasKey stp "tool" = false ∨ hasKey stp "args" = false) →
      isErr (generate_plan (some plan) resp2 allowed).1 = true) ∧
    (jGet plan "steps" = some (.jarr l) → stp ∈ l → allowed ≠ [] →
      toolAllowed (jGet stp "tool") allowed = false →
      isErr (generate_plan (some plan) resp2 allowed).1 = true) := by
  refine ⟨rfl, rfl, fun p2 => rfl, ?_, ?_, ?_, ?_, ?_⟩
  · intro h
    simp [generate_plan, validatePlan, h, isErr]
  · intro j hj harr
    cases j <;> simp [isArr] at harr <;>
      simp [generate_plan, validatePlan, hj, isErr]
  · intro h
    simp [generate_plan, validatePlan, h, isErr]
  · intro hsteps hmem hbad
    have hb : (!(hasKey stp "tool") || !(hasKey stp "args")) = true := by
      rcases hbad with hb | hb <;> simp [hb]
    have herr := validateSteps_err_of_mem allowed l stp hmem (Or.inl hb)
    have hne : l ≠ [] := by
      intro hl; rw [hl] at hmem; exact absurd hmem (List.not_mem_nil stp)
    have hlen : (l.length == 0) = false := by
      cases l with
      | nil => exact absurd rfl hne
      | cons a t => simp
    cases hrec : validateSteps allowed l with
    | error e => simp [generate_plan, validatePlan, hsteps, hlen, hrec, isErr]
    | ok l' => rw [hrec] at herr; exact absurd herr (by simp [isErr])
  · intro hsteps hmem hall htool
    have hb : ((allowed != []) && !(toolAllowed (jGet stp "tool") allowed)) = true := by
      have : (allowed != []) = true := by
        cases allowed with
        | nil => exact absurd rfl hall
        | cons a t => simp
      simp [this, htool]
    have herr := validateSteps_err_of_mem allowed l stp hmem (Or.inr hb)
    have hne : l ≠ [] := by
      intro hl; rw [hl] at hmem; exact absurd hmem (List.not_mem_nil stp)
    have hlen : (l.length == 0) = false := by
      cases l with
      | nil => exact absurd rfl hne
      | cons a t => simp
    cases hrec : validateSteps allowed l with
    | error e => simp [generate_plan, validatePlan, hsteps, hlen, hrec, isErr]
    | ok l' => rw [hrec] at herr; exact absurd herr (by simp [isErr])

/-- A plan whose single step lacks the `tool` field. -/
def demoBadPlan : Json :=
  .jobj [("steps", .jarr [.jobj [("args", .jobj [])]])]

/-- Concrete instantiation of `generate_plan_spec`: the double parse failure
costs exactly two calls and errors, and the step without a `tool` field fails
validation. -/
theorem generate_plan_spec_witness :
    generate_plan none none ["shell.exec"] =
      (.error "Unable to parse JSON from planner output", 2) ∧
    isErr (generate_plan (some demoBadPlan) none ["shell.exec"]).1 = true :=
  ⟨(generate_plan_spec none ["shell.exec"] demoBadPlan [] Json.null).1,
   (generate_plan_spec none ["shell.exec"] demoBadPlan
      [.jobj [("args", .jobj [])]] (.jobj [("args", .jobj [])])).2.2.2.2.2.2.1
     rfl (List.mem_singleton.mpr rfl) (Or.inl rfl)⟩

end OpenAgent

namespace OpenAgent

/-! ## `scheduler/cron.py`

Python naive datetimes form a linear order isomorphic to microseconds since
`0001-01-01T00:00:00` (proleptic Gregorian, `datetime.min`); a time is
modelled as that microsecond count.  `timedelta` arithmetic is addition,
`replace(second=0, microsecond=0)` is flooring to the minute, and the civil
fields (minute, hour, day, month, weekday) are recovered by the standard
days-to-civil conversion, with `0001-01-01` a Monday as in `datetime`. -/

def usPerMin : Nat := 60000000
def usPerDay : Nat := 86400000000

/-- `t.minute`. -/
def minuteOf (t : Nat) : Nat := (t / usPerMin) % 60

/-- `t.hour`. -/
def hourOf (t : Nat) : Nat := (t / 3600000000) % 24

/-- Days since 0001-01-01. -/
def daysOf (t : Nat) : Nat := t / usPerDay

/-- Civil (year, month, day) from a day count since 0001-01-01, by the
era-based Gregorian conversion. -/
def civilFromDays (days : Nat) : Nat × Nat × Nat :=
  let n := days + 306
  let era := n / 146097
  let doe := n % 146097
  let yoe := (doe - doe / 1460 + doe / 36524 - doe / 146096) / 365
  let y := yoe + era * 400
  let doy := doe - (365 * yoe + yoe / 4 - yoe / 100)
  let mp := (5 * doy + 2) / 153
  let d := doy - (153 * mp + 2) / 5 + 1
  let m := if mp < 10 then mp + 3 else mp - 9
  (if m ≤ 2 then y + 1 else y, m, d)

/-- `t.month`. -/
def monthOf (t : Nat) : Nat := (civilFromDays (daysOf t)).2.1

/-- `t.day`. -/
def dayOf (t : Nat) : Nat := (civilFromDays (daysOf t)).2.2

/-- The cron day-of-week `(t.weekday() + 1) % 7` (Sunday = 0); Python's
`weekday()` is days-since-Monday, and day 0 (0001-01-01) is a Monday. -/
def cronDow (t : Nat) : Nat := (daysOf t % 7 + 1) % 7

/-- `after.replace(second=0, microsecond=0)`. -/
def floorMinute (t : Nat) : Nat := t - t % usPerMin

/-- Python `range(a, b, step)` over integers (as a list; `_parse_field`
collects values into a set, where only membership matters). -/
def pyRange (a b step : Int) : List Int :=
  (List.range (((b - a + step - 1) / step).toNat)).map (fun (i : Nat) => a + step * (i : Int))

/-- Python `s[n:]`. -/
def strDrop (s : String) (n : Nat) : String := ⟨s.data.drop n⟩

/-- Translation of `cron._parse_field`: one comma-separated part. -/
def parseFieldPart (part : String) (minv maxv : Int) : Except String (List Int) :=
  let part := pyStrip part
  if part == "*" then .ok (pyRange minv (maxv + 1) 1)
  else if strStarts part "*/" then
    match pyInt (strDrop part 2) with
    | none => .error "invalid literal for int"
    | some step =>
      if step ≤ 0 then .error "invalid step"
      else .ok (pyRange minv (maxv + 1) step)
  else if strContains part "/" then
    let (rng, restS) := pySplit1 part '/'
    match pyInt (restS.getD "") with
    | none => .error "invalid literal for int"
    | some step =>
      if step == 0 then .error "range() arg 3 must not be zero"
      else
        let ab : Except String (Int × Int) :=
          if strContains rng "-" then
            let (a_s, b_s) := pySplit1 rng '-'
            match pyInt a_s, pyInt (b_s.getD "") with
            | some a, some b => .ok (a, b)
            | _, _ => .error "invalid literal for int"
          else
            match pyInt rng with
            | some a => .ok (a, maxv)
            | none => .error "invalid literal for int"
        match ab with
        | .error e => .error e
        | .ok (a, b) =>
          if a < minv || b > maxv || a > b then .error "invalid range"
          else .ok (pyRange a (b + 1) step)
  else if strContains part "-" then
    let (a_s, b_s) := pySplit1 part '-'
    match pyInt a_s, pyInt (b_s.getD "") with
    | some a, some b =>
      if a < minv || b > maxv || a > b then .error "invalid range"
      else .ok (pyRange a (b + 1) 1)
    | _, _ => .error "invalid literal for int"
  else
    match pyInt part with
    | none => .error "invalid literal for int"
    | some v =>
      if v < minv || v > maxv then .error "value out of range"
      else .ok [v]

/-- The comma loop of `_parse_field` (set union modelled as concatenation;
only membership is ever used). -/
def parseFieldParts (minv maxv : Int) : List String → Except String (List Int)
  | [] => .ok []
  | p :: rest =>
    match parseFieldPart p minv maxv with
    | .error e => .error e
    | .ok vs =>
      match parseFieldParts minv maxv rest with
      | .error e => .error e
      | .ok rest' => .ok (vs ++ rest')

/-- Translation of `cron._parse_field`. -/
def parseField (field : String) (minv maxv : Int) : Except String (List Int) :=
  let field := pyStrip field
  if field == "*" then .ok (pyRange minv (maxv + 1) 1)
  else parseFieldParts minv maxv (pySplitChar field ',')

/-- The parsed `Cron` value (sets as lists, membership-equivalent). -/
structure Cron where
  minutes : List Int
  hours : List Int
  dom : List Int
  months : List Int
  dow : List Int
deriving DecidableEq

/-- Translation of `Cron.parse`: exactly five whitespace-separated fields;
day-of-week values are normalised with 7 mapped to 0 (Sunday). -/
def cronParse (expr : String) : Except String Cron :=
  match (pySplitWs (pyStrip expr)).filter (fun p => !(p == "")) with
  | [minute_s, hour_s, dom_s, month_s, dow_s] =>
    match parseField minute_s 0 59 with
    | .error e => .error e
    | .ok minutes =>
      match parseField hour_s 0 23 with
      | .error e => .error e
      | .ok hours =>
        match parseField dom_s 1 31 with
        | .error e => .error e
        | .ok dom =>
          match parseField month_s 1 12 with
          | .error e => .error e
          | .ok months =>
            match parseField dow_s 0 7 with
            | .error e => .error e
            | .ok dowv =>
              .ok { minutes := minutes, hours := hours, dom := dom, months := months,
                    dow := dowv.map (fun v => if v == 7 then 0 else v) }
  | _ => .error "Cron must have 5 fields: min hour dom month dow"

/-- Translation of `Cron.matches`. -/
def cronMatches (c : Cron) (t : Nat) : Bool :=
  c.minutes.contains (minuteOf t : Int) && c.hours.contains (hourOf t : Int)
    && c.dom.contains (dayOf t : Int) && c.months.contains (monthOf t : Int)
    && c.dow.contains (cronDow t : Int)

/-- The minute-by-minute search loop of `Cron.next_after`, with fuel (the
loop body runs at most once per minute in the lookahead window, so any fuel
beyond the window size is equivalent to the unbounded loop). -/
def nextAfterAux (c : Cron) (endT : Nat) : Nat → Nat → Option Nat
  | 0, _ => none
  | fuel + 1, t =>
    if t ≤ endT then
      if cronMatches c t then some t
      else nextAfterAux c endT fuel (t + usPerMin)
    else none

/-- Fuel exceeding the 366-day window's 527040 minutes. -/
def cronFuel : Nat := 527100

/-- Translation of `Cron.next_after` (`max_lookahead_days = 366`): start at
the floor of `after` plus one minute, search minute by minute while
`t <= after + 366 days`, and raise (modelled `none`) when nothing matches. -/
def next_after (c : Cron) (after : Nat) : Option Nat :=
  nextAfterAux c (after + 366 * usPerDay) cronFuel (floorMinute after + usPerMin)

end OpenAgent

deriving instance DecidableEq for Except

namespace OpenAgent

/-- The `Cron` value `parse("* * * * *")` produces: every field full. -/
def starCron : Cron :=
  { minutes := pyRange 0 60 1, hours := pyRange 0 24 1, dom := pyRange 1 32 1,
    months := pyRange 1 13 1, dow := (pyRange 0 8 1).map (fun v => if v == 7 then 0 else v) }

/-- The civil day is always in 1..31 and the month in 1..12. -/
theorem civil_bounds (days : Nat) :
    1 ≤ (civilFromDays days).2.2 ∧ (civilFromDays days).2.2 ≤ 31 ∧
    1 ≤ (civilFromDays days).2.1 ∧ (civilFromDays days).2.1 ≤ 12 := by
  simp only [civilFromDays]
  split_ifs <;> simp <;> omega

/-- Membership in a step-1 Python range. -/
theorem mem_pyRange_one {a b v : Int} (h1 : a ≤ v) (h2 : v < b) : v ∈ pyRange a b 1 := by
  unfold pyRange
  refine List.mem_map.mpr ⟨(v - a).toNat, List.mem_range.mpr ?_, ?_⟩
  · have hb : (b - a + 1 - 1) / 1 = b - a := by norm_num
    rw [hb]
    omega
  · omega

/-- The all-wildcards cron matches every time. -/
theorem matches_star (t : Nat) : cronMatches starCron t = true := by
  have hmin : minuteOf t < 60 := Nat.mod_lt _ (by norm_num)
  have hhour : hourOf t < 24 := Nat.mod_lt _ (by norm_num)
  have hdow : cronDow t < 7 := Nat.mod_lt _ (by norm_num)
  have hciv := civil_bounds (daysOf t)
  have hday1 : 1 ≤ dayOf t := hciv.1
  have hday2 : dayOf t ≤ 31 := hciv.2.1
  have hmon1 : 1 ≤ monthOf t := hciv.2.2.1
  have hmon2 : monthOf t ≤ 12 := hciv.2.2.2
  have c1 : starCron.minutes.contains (minuteOf t : Int) = true :=
    List.elem_iff.mpr (mem_pyRange_one (by positivity) (by exact_mod_cast hmin))
  have c2 : starCron.hours.contains (hourOf t : Int) = true :=
    List.elem_iff.mpr (mem_pyRange_one (by positivity) (by exact_mod_cast hhour))
  have c3 : starCron.dom.contains (dayOf t : Int) = true := by
    refine List.elem_iff.mpr (mem_pyRange_one ?_ ?_)
    · exact_mod_cast hday1
    · omega
  have c4 : starCron.months.contains (monthOf t : Int) = true := by
    refine List.elem_iff.mpr (mem_pyRange_one ?_ ?_)
    · exact_mod_cast hmon1
    · omega
  have c5 : starCron.dow.contains (cronDow t : Int) = true := by
    apply List.elem_iff.mpr
    show (cronDow t : Int) ∈ (pyRange 0 8 1).map (fun v => if v == 7 then 0 else v)
    rw [List.mem_map]
    refine ⟨(cronDow t : Int), mem_pyRange_one (by positivity) (by exact_mod_cast
      (show cronDow t < 8 by omega)), ?_⟩
    have hne : ((cronDow t : Int) == 7) = false := by
      apply beq_eq_false_iff_ne.mpr
      omega
    simp [hne]
  simp only [cronMatches, c1, c2, c3, c4, c5, Bool.and_self]

/-- One unfolding of the search loop. -/
theorem nextAfterAux_step (c : Cron) (endT f t : Nat) :
    nextAfterAux c endT (f + 1) t =
      if t ≤ endT then
        (if cronMatches c t then some t else nextAfterAux c endT f (t + usPerMin))
      else none := rfl

/-- Soundness of the search loop: a returned time is minute-aligned with the
start, inside the window, matches, and nothing aligned before it matches. -/
theorem nextAfterAux_sound (c : Cron) (endT : Nat) :
    ∀ fuel t r, t % usPerMin = 0 → nextAfterAux c endT fuel t = some r →
      cronMatches c r = true ∧ t ≤ r ∧ r ≤ endT ∧ r % usPerMin = 0 ∧
      ∀ u, u % usPerMin = 0 → t ≤ u → u < r → cronMatches c u = false := by
  intro fuel
  induction fuel with
  | zero => intro t r ht h; simp [nextAfterAux] at h
  | succ f ih =>
    intro t r ht h
    rw [nextAfterAux_step] at h
    by_cases hle : t ≤ endT
    · rw [if_pos hle] at h
      cases hm : cronMatches c t with
      | true =>
        rw [hm, if_pos rfl] at h
        obtain rfl : t = r := Option.some.inj h
        exact ⟨hm, le_refl _, hle, ht, fun u _ htu hur => absurd hur (by omega)⟩
      | false =>
        rw [hm] at h
        simp only [Bool.false_eq_true, if_false] at h
        have ht' : (t + usPerMin) % usPerMin = 0 := by
          simp only [usPerMin] at ht ⊢; omega
        obtain ⟨hm', hle', hr', hal', hmin'⟩ := ih (t + usPerMin) r ht' h
        refine ⟨hm', by omega, hr', hal', ?_⟩
        intro u hu htu hur
        by_cases heq : u = t
        · rw [heq]; exact hm
        · have : t + usPerMin ≤ u := by
            simp only [usPerMin] at ht hu ⊢; omega
          exact hmin' u hu this hur
    · rw [if_neg hle] at h
      exact absurd h (by simp)

/-- Completeness of the search loop: with enough fuel for the window, a
`none` result means no aligned time in the window matches. -/
theorem nextAfterAux_none (c : Cron) (endT : Nat) :
    ∀ fuel t, t % usPerMin = 0 → endT < t + fuel * usPerMin →
      nextAfterAux c endT fuel t = none →
      ∀ u, u % usPerMin = 0 → t ≤ u → u ≤ endT → cronMatches c u = false := by
  intro fuel
  induction fuel with
  | zero =>
    intro t ht hf h u hu htu hue
    simp only [Nat.zero_mul, Nat.add_zero] at hf
    omega
  | succ f ih =>
    intro t ht hf h u hu htu hue
    rw [nextAfterAux_step] at h
    by_cases hle : t ≤ endT
    · rw [if_pos hle] at h
      cases hm : cronMatches c t with
      | true => rw [hm, if_pos rfl] at h; exact absurd h (by simp)
      | false =>
        rw [hm] at h
        simp only [Bool.false_eq_true, if_false] at h
        by_cases heq : u = t
        · rw [heq]; exact hm
        · have ht' : (t + usPerMin) % usPerMin = 0 := by
            simp only [usPerMin] at ht ⊢; omega
          have hf' : endT < (t + usPerMin) + f * usPerMin := by
            simp only [usPerMin] at hf ⊢
            have : (f + 1) * 60000000 = f * 60000000 + 60000000 := by ring
            omega
          have htu' : t + usPerMin ≤ u := by
            simp only [usPerMin] at ht hu ⊢; omega
          exact ih (t + usPerMin) ht' hf' h u hu htu' hue
    · omega

/-- C8 amended: `Cron.parse` accepts exactly 5-field expressions with `*`,
ranges, steps and lists, mapping day-of-week 7 to Sunday (0); `next_after t`
returns the earliest time with second and microsecond zeroed that is strictly
after `t` truncated to the minute (i.e. no earlier than the next minute
boundary — which can be less than one minute after `t` when `t` has nonzero
seconds or microseconds) and matches all five fields, searching minute by
minute and failing when nothing matches up to `t + 366 days`; for
`* * * * *` it returns exactly the next minute boundary. -/
theorem cron_spec (c : Cron) (after : Nat) :
    (cronParse "* * * * *" = .ok starCron ∧
     cronParse "*/15 1-3 * * 1,5" =
       .ok { minutes := [0, 15, 30, 45], hours := [1, 2, 3], dom := pyRange 1 32 1,
             months := pyRange 1 13 1, dow := [1, 5] } ∧
     cronParse "0 0 * * 7" =
       .ok { minutes := [0], hours := [0], dom := pyRange 1 32 1,
             months := pyRange 1 13 1, dow := [0] } ∧
     cronParse "1 2 3" = .error "Cron must have 5 fields: min hour dom month dow") ∧
    (∀ r, next_after c after = some r →
      cronMatches c r = true ∧ r % usPerMin = 0 ∧
      floorMinute after < r ∧ r ≤ after + 366 * usPerDay ∧
      ∀ u, u % usPerMin = 0 → floorMinute after < u → u < r → cronMatches c u = false) ∧
    (next_after c after = none →
      ∀ u, u % usPerMin = 0 → floorMinute after < u → u ≤ after + 366 * usPerDay →
        cronMatches c u = false) ∧
    ((∀ u, u % usPerMin = 0 → floorMinute after < u → u ≤ after + 366 * usPerDay →
        cronMatches c u = false) → next_after c after = none) ∧
    next_after starCron after = some (floorMinute after + usPerMin) := by
  have ht0 : (floorMinute after + usPerMin) % usPerMin = 0 := by
    simp only [floorMinute, usPerMin]; omega
  have hgap : ∀ u, u % usPerMin = 0 → floorMinute after < u →
      floorMinute after + usPerMin ≤ u := by
    intro u hu hlt
    simp only [floorMinute, usPerMin] at hu hlt ⊢
    omega
  have hsound : ∀ r, next_after c after = some r →
      cronMatches c r = true ∧ r % usPerMin = 0 ∧
      floorMinute after < r ∧ r ≤ after + 366 * usPerDay ∧
      ∀ u, u % usPerMin = 0 → floorMinute after < u → u < r → cronMatches c u = false := by
    intro r h
    obtain ⟨hm, hle, hr, hal, hmin⟩ :=
      nextAfterAux_sound c (after + 366 * usPerDay) cronFuel
        (floorMinute after + usPerMin) r ht0 h
    refine ⟨hm, hal, ?_, hr, ?_⟩
    · simp only [floorMinute, usPerMin] at hle ⊢; omega
    · intro u hu hlt hur
      exact hmin u hu (hgap u hu hlt) hur
  refine ⟨⟨by decide, by decide, by decide, by decide⟩, hsound, ?_, ?_, ?_⟩
  · intro h u hu hlt hue
    have hfuel : after + 366 * usPerDay <
        (floorMinute after + usPerMin) + cronFuel * usPerMin := by
      simp only [floorMinute, usPerMin, usPerDay, cronFuel]
      omega
    exact nextAfterAux_none c (after + 366 * usPerDay) cronFuel
      (floorMinute after + usPerMin) ht0 hfuel h u hu (hgap u hu hlt) hue
  · intro hno
    cases h : next_after c after with
    | none => rfl
    | some r =>
      obtain ⟨hm, hal, hlt, hr, -⟩ := hsound r h
      exact absurd hm (by simp [hno r hal hlt hr])
  · have hle : floorMinute after + usPerMin ≤ after + 366 * usPerDay := by
      simp only [floorMinute, usPerMin, usPerDay]
      omega
    show nextAfterAux starCron (after + 366 * usPerDay) cronFuel
      (floorMinute after + usPerMin) = some (floorMinute after + usPerMin)
    rw [show cronFuel = 527099 + 1 from rfl, nextAfterAux_step, if_pos hle,
        matches_star, if_pos rfl]

/-- C8 counterexample: with seconds present in `t`, the result is not "at
least one minute after t": for `* * * * *` at `t` = 00:00:30 the next fire is
00:01:00, only 30 seconds later. -/
theorem cron_next_after_claim_false :
    cronParse "* * * * *" = .ok starCron ∧
    next_after starCron 30000000 = some 60000000 ∧
    (60000000 : Nat) < 30000000 + 60000000 := by
  refine ⟨by decide, by decide, by decide⟩

/-- Concrete instantiation of `cron_spec`: the all-wildcards cron fires at
the minute boundary after 00:00:30, and its result satisfies the soundness
conjunct. -/
theorem cron_spec_witness :
    next_after starCron 30000000 = some 60000000 ∧
    cronMatches starCron 60000000 = true ∧ (60000000 : Nat) % usPerMin = 0 := by
  have h := (cron_spec starCron 30000000).2.2.2.2
  have hflo : floorMinute 30000000 + usPerMin = 60000000 := by decide
  rw [hflo] at h
  obtain ⟨hm, hal, -, -, -⟩ := (cron_spec starCron 30000000).2.1 60000000 h
  exact ⟨h, hm, hal⟩

end OpenAgent
